import Mathlib

/-
Verification of the discord-to-telegram mirror pipeline (src/main.py).

The program is shallowly embedded: text is `List Char`, the on-disk history
file is an association list from item keys to timestamp strings, the two
network collaborators (message fetch and message send) are parameters, and
the side effects of a run (history loads, history saves, outbound sends)
are recorded in an explicit event trace.
-/

namespace Mirror

abbrev Str := List Char

/-! ### Content Normalizer: filter_content (main.py lines 43-49) -/

/-- Case-insensitive character comparison, modelling re.IGNORECASE matching. -/
def ciEq (a b : Char) : Bool := a.toLower == b.toLower

/-- Case-insensitive "p is a prefix of s". -/
def ciStartsWith : Str → Str → Bool
  | [], _ => true
  | _ :: _, [] => false
  | a :: as, b :: bs => ciEq a b && ciStartsWith as bs

/-- Case-insensitive "s has an occurrence of p" (Python `re.search` with
IGNORECASE on an escaped literal). -/
def containsCI (p : Str) : Str → Bool
  | [] => p.isEmpty
  | c :: rest => ciStartsWith p (c :: rest) || containsCI p rest

/-- Fuel-indexed worker for `removeAllCI`; the fuel is always at least the
length of the text, so the fallthrough case is never reached. -/
def removeAllCIAux (p : Str) : Nat → Str → Str
  | _, [] => []
  | 0, s => s
  | fuel + 1, c :: rest =>
    if !p.isEmpty && ciStartsWith p (c :: rest) then
      removeAllCIAux p fuel (rest.drop (p.length - 1))
    else
      c :: removeAllCIAux p fuel rest

/-- One left-to-right pass removing the non-overlapping case-insensitive
occurrences of `p`, modelling `re.sub(re.escape(word), '', content,
flags=re.IGNORECASE)`.  An empty pattern leaves the text unchanged. -/
def removeAllCI (p : Str) (s : Str) : Str := removeAllCIAux p s.length s

def isSpaceChar (c : Char) : Bool := c.isWhitespace

/-- Python `str.strip()`: drop leading and trailing whitespace. -/
def strip (s : Str) : Str :=
  ((s.dropWhile isSpaceChar).reverse.dropWhile isSpaceChar).reverse

/-- main.py `filter_content`: for each configured word, one case-insensitive
substitution pass, then strip; falsy input yields the empty string. -/
def filter_content (words : List Str) (content : Str) : Str :=
  if content.isEmpty then []
  else strip (words.foldl (fun acc w => removeAllCI w acc) content)

/-! ### Content Normalizer: clean_content_for_telegram (lines 85-93) -/

def isWordChar (c : Char) : Bool := c.isAlphanum || c == '_'

/-- Matcher for the custom-emoji token regex `<a?:\w+:\d+>` at the head of
the input; returns (number of characters consumed) - 1 on a match. -/
def matchEmojiBody (r : Str) (pre : Nat) : Option Nat :=
  let w := r.takeWhile isWordChar
  if w.isEmpty then none
  else
    match r.drop w.length with
    | ':' :: r2 =>
      let d := r2.takeWhile Char.isDigit
      if d.isEmpty then none
      else
        match r2.drop d.length with
        | '>' :: _ => some (pre + w.length + d.length + 1)
        | _ => none
    | _ => none

def matchEmoji (s : Str) : Option Nat :=
  match s with
  | '<' :: 'a' :: ':' :: r => matchEmojiBody r 3
  | '<' :: ':' :: r => matchEmojiBody r 2
  | _ => none

/-- Digits then a closing angle bracket, used by the mention matcher. -/
def digitsThenGt (r : Str) (pre : Nat) : Option Nat :=
  let d := r.takeWhile Char.isDigit
  if d.isEmpty then none
  else
    match r.drop d.length with
    | '>' :: _ => some (pre + d.length)
    | _ => none

/-- Matcher for the mention regex alternation at the head
of the input; returns (number of characters consumed) - 1 on a match. -/
def matchMention (s : Str) : Option Nat :=
  match s with
  | '<' :: '@' :: '!' :: r => digitsThenGt r 3
  | '<' :: '@' :: '&' :: r => digitsThenGt r 3
  | '<' :: '@' :: r => digitsThenGt r 2
  | '<' :: '#' :: r => digitsThenGt r 2
  | _ => none

/-- Fuel-indexed worker for `removeTokens`; the fuel is always at least the
length of the text, so the fallthrough case is never reached. -/
def removeTokensAux (mt : Str → Option Nat) : Nat → Str → Str
  | _, [] => []
  | 0, s => s
  | fuel + 1, c :: rest =>
    match mt (c :: rest) with
    | some n => removeTokensAux mt fuel (rest.drop n)
    | none => c :: removeTokensAux mt fuel rest

/-- `re.sub(pattern, '', s)`: scan left to right, deleting each
non-overlapping match reported by `mt` (which returns consumed - 1). -/
def removeTokens (mt : Str → Option Nat) (s : Str) : Str :=
  removeTokensAux mt s.length s

def backquote : Char := Char.ofNat 96

/-- The inline-formatting characters removed by the character class. -/
def fmtChars : List Char := ['*', '_', '~', backquote, '|']

/-- main.py `clean_content_for_telegram`: strip custom emoji, mentions and
formatting punctuation, then apply `filter_content`. -/
def clean_content_for_telegram (words : List Str) (content : Str) : Str :=
  if content.isEmpty then []
  else
    let c1 := removeTokens matchEmoji content
    let c2 := removeTokens matchMention c1
    let c3 := c2.filter (fun c => !(fmtChars.contains c))
    filter_content words c3

/-! ### Content Normalizer: process_embed (lines 95-108) -/

structure EmbedField where
  name : Str
  value : Str
deriving DecidableEq

structure Embed where
  title : Str
  description : Str
  fields : List EmbedField
deriving DecidableEq

def stars : Str := ['*', '*']
def twoNL : Str := ['\n', '\n']

/-- main.py `process_embed`: emphasized title, cleaned description, and for
each field with non-empty filtered name and non-empty cleaned value an
emphasized name-value block; blocks joined with blank lines. -/
def process_embed (words : List Str) (e : Embed) : Str :=
  let parts :=
    (let t := filter_content words e.title
     if t.isEmpty then [] else [stars ++ t ++ stars]) ++
    (let d := clean_content_for_telegram words e.description
     if d.isEmpty then [] else [d]) ++
    e.fields.filterMap (fun f =>
      let n := filter_content words f.name
      let v := clean_content_for_telegram words f.value
      if !n.isEmpty && !v.isEmpty then some (stars ++ n ++ stars ++ '\n' :: v)
      else none)
  List.intercalate twoNL parts

/-! ### History Store (lines 51-62): the upload_history.json mapping -/

/-- The persisted history file: item key (message id or attachment url)
mapped to an ISO timestamp string. -/
abbrev History := List (Str × Str)

/-- Python `key in history`. -/
def hasKey (h : History) (k : Str) : Bool :=
  h.any (fun p => decide (p.1 = k))

/-- Python `history[k] = v`: overwrite the value if the key exists,
otherwise add the key. -/
def histSet (h : History) (k v : Str) : History :=
  if hasKey h k then h.map (fun p => if p.1 = k then (p.1, v) else p)
  else h ++ [(k, v)]

/-! ### Window Filter: is_within_window (lines 64-71) -/

/-- Python str.replace over the timestamp string: every Z becomes +00:00. -/
def replaceZ : Str → Str
  | [] => []
  | c :: rest =>
    if c = 'Z' then '+' :: '0' :: '0' :: ':' :: '0' :: '0' :: replaceZ rest
    else c :: replaceZ rest

/-- main.py `is_within_window`.  `fromiso` models
`datetime.fromisoformat` (an external library call): `none` is a raised
ValueError, `some t` a parsed time in seconds.  An unparseable timestamp is
logged and reported as not-recent; otherwise the strict comparison
`now - msg_time < timedelta(hours=windowHours)` is evaluated. -/
def is_within_window (fromiso : Str → Option Int) (windowHours now : Int)
    (message_timestamp : Str) : Bool :=
  match fromiso (replaceZ message_timestamp) with
  | none => false
  | some t => decide (now - t < windowHours * 3600)

/-! ### Message data model (Discord fetch payload fields used by main.py) -/

structure Attachment where
  url : Str
  content_type : Str
deriving DecidableEq

structure Message where
  id : Str
  timestamp : Str
  content : Str
  embeds : List Embed
  attachments : List Attachment
deriving DecidableEq

/-- Case-sensitive "p is a prefix of s" (Python `in` on str). -/
def startsWithCS : Str → Str → Bool
  | [], _ => true
  | _ :: _, [] => false
  | a :: as, b :: bs => (a == b) && startsWithCS as bs

/-- Case-sensitive substring test, Python `p in s`. -/
def containsCS (p : Str) : Str → Bool
  | [] => p.isEmpty
  | c :: rest => startsWithCS p (c :: rest) || containsCS p rest

/-- Line 171: the urls of attachments whose content_type has "image". -/
def imageUrls (m : Message) : List Str :=
  (m.attachments.filter
    (fun a => containsCS ['i', 'm', 'a', 'g', 'e'] a.content_type)).map
    (fun a => a.url)

/-- Lines 161-169: cleaned message content followed by each embed's
rendered block, non-empty parts joined with blank lines. -/
def buildFullText (words : List Str) (m : Message) : Str :=
  let parts :=
    (let c := clean_content_for_telegram words m.content
     if c.isEmpty then [] else [c]) ++
    m.embeds.filterMap (fun e =>
      let t := process_embed words e
      if t.isEmpty then none else some t)
  List.intercalate twoNL parts

/-! ### Forwarder: send_to_telegram (lines 110-144) -/

structure MediaItem where
  media : Str
  caption : Option Str
deriving DecidableEq

/-- The three outbound send shapes of the Telegram collaborator. -/
inductive SendReq where
  | mediaGroup (chat thread : Str) (media : List MediaItem)
  | photo (chat thread : Str) (photo : Str) (caption : Option Str)
  | message (chat thread : Str) (text : Str)
deriving DecidableEq

/-- Python truthiness of the optional text argument: present and
non-empty. -/
def truthyOpt : Option Str → Bool
  | none => false
  | some s => !s.isEmpty

/-- Lines 116-123: the media list built from the input urls.  A url already
in history is skipped; the caption is attached when the ORIGINAL enumerate
index is 0 and the text is truthy. -/
def buildMedia (history : History) (text_content : Option Str) :
    Nat → List Str → List MediaItem
  | _, [] => []
  | i, url :: rest =>
    if hasKey history url then buildMedia history text_content (i + 1) rest
    else
      { media := url
        caption := if i == 0 && truthyOpt text_content then text_content
                   else none } :: buildMedia history text_content (i + 1) rest

structure SendResult where
  success : Bool
  sent_items : List Str
  sends : List SendReq
deriving DecidableEq

/-- Lines 126-136: the mutually exclusive branch selection of the try
block, first match wins; `none` is the `return False, []` branch for no
content (no outbound call at all). -/
def selectReq (history : History) (chat_id thread_id : Str)
    (text_content : Option Str) (image_urls : List Str) : Option SendReq :=
  let media := buildMedia history text_content 0 image_urls
  if 1 < media.length then
    some (SendReq.mediaGroup chat_id thread_id media)
  else if media.length == 1 then
    some (SendReq.photo chat_id thread_id (media.headD ⟨[], none⟩).media
      (media.headD ⟨[], none⟩).caption)
  else if truthyOpt text_content then
    some (SendReq.message chat_id thread_id
      (match text_content with | some s => s | none => []))
  else none

/-- main.py `send_to_telegram`.  `transport` models `requests.post`:
`false` is a raised RequestException, caught by the shared handler of
lines 142-144 giving `(False, [])`.  The shared success path of lines
138-140 returns `[url for url in image_urls]` — the whole input list.  The
`sends` field records the outbound call the invocation attempted, if
any. -/
def send_to_telegram (transport : SendReq → Bool) (history : History)
    (chat_id thread_id : Str) (text_content : Option Str)
    (image_urls : List Str) : SendResult :=
  match selectReq history chat_id thread_id text_content image_urls with
  | none => ⟨false, [], []⟩
  | some req =>
    if transport req then ⟨true, image_urls, [req]⟩ else ⟨false, [], [req]⟩

/-- The input urls that survive the Forwarder's defensive history check. -/
def eligible (h : History) (urls : List Str) : List Str :=
  urls.filter (fun u => !(hasKey h u))

/-! ### Pipeline Orchestrator: process_channel and main (lines 146-196) -/

/-- Observable side effects of a run, in order: reads of the history file,
the skip check evaluated against a history value, outbound sends, writes of
the history file. -/
inductive Event where
  | loadHistory (h : History)
  | skipCheck (id : Str) (h : History)
  | send (r : SendReq)
  | saveHistory (h : History)
deriving DecidableEq

def isSendEvent : Event → Bool
  | .send _ => true
  | _ => false

def isLoadEvent : Event → Bool
  | .loadHistory _ => true
  | _ => false

def isCheckEvent : Event → Bool
  | .skipCheck _ _ => true
  | _ => false

/-- Number of outbound destination sends in a trace. -/
def countSends (evs : List Event) : Nat := (evs.filter isSendEvent).length

/-- Fixed per-run inputs: the fromisoformat collaborator, the configured
window, the current time, the timestamp `utcnow` records into history, and
the banned-word list. -/
structure Env where
  fromiso : Str → Option Int
  windowHours : Int
  now : Int
  nowIso : Str
  words : List Str

structure StepResult where
  hist : History
  events : List Event
  cnt : Nat

/-- Lines 156-182, one iteration of the message loop.  The skip check uses
the channel-level in-memory history; a skipped message produces no save.
An attempted message triggers the Forwarder (which itself loads the
history file, line 112), then the history update on success, then the
unconditional save (line 181). -/
def process_message (T : SendReq → Bool) (env : Env) (chat thread : Str)
    (hist : History) (m : Message) : StepResult :=
  if hasKey hist m.id
      || !(is_within_window env.fromiso env.windowHours env.now m.timestamp)
  then
    ⟨hist, [Event.skipCheck m.id hist], 0⟩
  else
    let full_text := buildFullText env.words m
    let image_urls := imageUrls m
    let r := send_to_telegram T hist chat thread (some full_text) image_urls
    let hist' :=
      if r.success then
        r.sent_items.foldl (fun h u => histSet h u env.nowIso)
          (histSet hist m.id env.nowIso)
      else hist
    ⟨hist',
     Event.skipCheck m.id hist :: Event.loadHistory hist ::
       r.sends.map Event.send ++ [Event.saveHistory hist'],
     if r.success then 1 else 0⟩

structure RunOut where
  hist : History
  steps : List (List Event)
  cnt : Nat

/-- The message loop over an already-sorted message list. -/
def runSteps (T : SendReq → Bool) (env : Env) (chat thread : Str) :
    History → List Message → RunOut
  | h, [] => ⟨h, [], 0⟩
  | h, m :: ms =>
    let s := process_message T env chat thread h m
    let r := runSteps T env chat thread s.hist ms
    ⟨r.hist, s.events :: r.steps, s.cnt + r.cnt⟩

/-- Python string comparison (by code point), for the timestamp sort key. -/
def lexLt : Str → Str → Bool
  | [], [] => false
  | [], _ :: _ => true
  | _ :: _, [] => false
  | a :: as, b :: bs =>
    if a.val < b.val then true
    else if b.val < a.val then false
    else lexLt as bs

/-- Stable insertion keeping an earlier element before later equal keys. -/
def insertByTs (m : Message) : List Message → List Message
  | [] => [m]
  | x :: xs =>
    if lexLt x.timestamp m.timestamp then x :: insertByTs m xs
    else m :: x :: xs

/-- Line 80, sorting the fetched page by its timestamp key: a stable
ascending sort by timestamp. -/
def sortByTs : List Message → List Message
  | [] => []
  | m :: ms => insertByTs m (sortByTs ms)

/-- main.py `get_discord_messages`: the fetch collaborator either raises
(`none`, logged, line 83) or yields a page of messages, which the function
sorts ascending by timestamp. -/
def get_discord_messages (fetched : Option (List Message)) :
    Option (List Message) :=
  match fetched with
  | none => none
  | some ms => some (sortByTs ms)

structure ChanResult where
  hist : History
  initEvents : List Event
  steps : List (List Event)
  cnt : Nat
deriving DecidableEq

/-- main.py `process_channel`: a failed or empty fetch returns before the
history file is read (lines 149-152); otherwise the history is loaded once
for the channel and the message loop runs. -/
def process_channel (T : SendReq → Bool) (env : Env) (chat thread : Str)
    (fetched : Option (List Message)) (h0 : History) : ChanResult :=
  match get_discord_messages fetched with
  | none => ⟨h0, [], [], 0⟩
  | some [] => ⟨h0, [], [], 0⟩
  | some (m :: ms) =>
    let r := runSteps T env chat thread h0 (m :: ms)
    ⟨r.hist, [Event.loadHistory h0], r.steps, r.cnt⟩

/-- All destination sends of a channel run. -/
def chanSends (cr : ChanResult) : Nat :=
  countSends cr.initEvents + (cr.steps.map countSends).sum

/-- Lines 193-195: the channel-mapping loop, threading the on-disk history
through the per-channel runs. -/
def runChannels (T : SendReq → Bool)
    (fetchRaw : Str → Option (List Message)) (env : Env) :
    List (Str × Str × Str) → History → History × List (Str × ChanResult)
  | [], h => (h, [])
  | (dc, tc, tt) :: rest, h =>
    let r := process_channel T env tc tt (fetchRaw dc) h
    let rr := runChannels T fetchRaw env rest r.hist
    (rr.1, (dc, r) :: rr.2)

/-- main.py `main`: if either platform token is falsy nothing is processed;
otherwise every configured mapping is processed in order. -/
def main_run (T : SendReq → Bool)
    (fetchRaw : Str → Option (List Message)) (env : Env)
    (discordToken telegramToken : Option Str)
    (mappings : List (Str × Str × Str)) (h0 : History) :
    History × List (Str × ChanResult) :=
  if truthyOpt discordToken && truthyOpt telegramToken then
    runChannels T fetchRaw env mappings h0
  else (h0, [])

/-! ### Helper lemmas about the normalizer -/

theorem removeAllCIAux_sublist (p : Str) :
    ∀ (fuel : Nat) (s : Str), List.Sublist (removeAllCIAux p fuel s) s := by
  intro fuel
  induction fuel with
  | zero =>
    intro s
    match s with
    | [] => exact List.Sublist.refl _
    | c :: rest => exact List.Sublist.refl _
  | succ n ih =>
    intro s
    match s with
    | [] => exact List.Sublist.refl _
    | c :: rest =>
      simp only [removeAllCIAux]
      split
      · exact ((ih _).trans (List.drop_sublist _ _)).cons c
      · exact (ih rest).cons₂ c

theorem removeAllCI_sublist (p s : Str) : List.Sublist (removeAllCI p s) s :=
  removeAllCIAux_sublist p s.length s

theorem foldl_removeAll_sublist :
    ∀ (ws : List Str) (s : Str),
      List.Sublist (ws.foldl (fun acc w => removeAllCI w acc) s) s := by
  intro ws
  induction ws with
  | nil => intro s; exact List.Sublist.refl s
  | cons w ws ih =>
    intro s
    simpa using (ih (removeAllCI w s)).trans (removeAllCI_sublist w s)

theorem removeAllCIAux_single (c : Char) :
    ∀ (fuel : Nat) (s : Str), s.length ≤ fuel →
      removeAllCIAux [c] fuel s = s.filter (fun x => !(ciEq c x)) := by
  intro fuel
  induction fuel with
  | zero =>
    intro s hs
    have hnil : s = [] := List.eq_nil_of_length_eq_zero (Nat.le_zero.mp hs)
    subst hnil
    rfl
  | succ n ih =>
    intro s hs
    match s with
    | [] => rfl
    | x :: rest =>
      simp only [removeAllCIAux, List.isEmpty, ciStartsWith, Bool.and_true,
        Bool.not_false, Bool.true_and, List.length_cons, List.length_nil,
        Nat.sub_self, List.drop_zero, List.filter_cons]
      have hr : rest.length ≤ n := by
        simp only [List.length_cons] at hs
        omega
      cases hcx : ciEq c x with
      | true => simp [hcx, ih rest hr]
      | false => simp [hcx, ih rest hr]

theorem removeAllCI_single (c : Char) (s : Str) :
    removeAllCI [c] s = s.filter (fun x => !(ciEq c x)) :=
  removeAllCIAux_single c s.length s (Nat.le_refl _)

theorem mem_of_mem_strip {x : Char} {s : Str} (hx : x ∈ strip s) : x ∈ s := by
  unfold strip at hx
  rw [List.mem_reverse] at hx
  have h1 := (List.dropWhile_sublist (p := isSpaceChar)
    (l := (s.dropWhile isSpaceChar).reverse)).mem hx
  rw [List.mem_reverse] at h1
  exact (List.dropWhile_sublist (p := isSpaceChar) (l := s)).mem h1

theorem containsCI_single (c : Char) :
    ∀ (l : Str), containsCI [c] l = l.any (fun x => ciEq c x) := by
  intro l
  induction l with
  | nil => rfl
  | cons x rest ih =>
    simp [containsCI, ciStartsWith, ih]

theorem foldl_no_single_occ (c : Char) :
    ∀ (ws : List Str), [c] ∈ ws → ∀ (s : Str) (x : Char),
      x ∈ ws.foldl (fun acc w => removeAllCI w acc) s → ciEq c x = false := by
  intro ws
  induction ws with
  | nil => simp
  | cons w ws ih =>
    intro hc s x hx
    simp only [List.foldl_cons] at hx
    rcases List.mem_cons.mp hc with h1 | h2
    · subst h1
      have hx' : x ∈ removeAllCI [c] s :=
        (foldl_removeAll_sublist ws (removeAllCI [c] s)).mem hx
      rw [removeAllCI_single] at hx'
      simpa using (List.mem_filter.mp hx').2
    · exact ih h2 _ x hx

/-- C4 (counterexample): with the banned phrase "ab", the input "aabb"
contains "ab", yet the single substitution pass deletes only the middle
occurrence and the surviving characters juxtapose into a new "ab": the
output of filter_content still contains the banned phrase. -/
theorem C4_counterexample :
    containsCI ['a', 'b'] ['a', 'a', 'b', 'b'] = true
    ∧ filter_content [['a', 'b']] ['a', 'a', 'b', 'b'] = ['a', 'b']
    ∧ containsCI ['a', 'b'] (filter_content [['a', 'b']] ['a', 'a', 'b', 'b'])
        = true := by
  decide

/-- C4 (amended): filter_content makes one left-to-right case-insensitive
removal pass per banned phrase and then trims.  For a banned phrase that is
a single character the output contains no case-insensitive occurrence of
it, whatever else the banned list holds; phrases of length at least two can
survive by juxtaposition, as the counterexample shows. -/
theorem C4_amended (words : List Str) (c : Char) (hc : [c] ∈ words)
    (s : Str) : containsCI [c] (filter_content words s) = false := by
  unfold filter_content
  split
  · rfl
  · rw [containsCI_single]
    rw [List.any_eq_false]
    intro x hx
    have hx' : x ∈ words.foldl (fun acc w => removeAllCI w acc) s :=
      mem_of_mem_strip hx
    simp [foldl_no_single_occ c words hc s x hx']

/-- C4 (witness): the single-character banned phrase "a" is removed
case-insensitively from "xAy" and no occurrence remains. -/
theorem C4_witness :
    containsCI ['a'] (filter_content [['a']] ['x', 'A', 'y']) = false :=
  C4_amended [['a']] 'a' (by decide) ['x', 'A', 'y']

/-! ### Helper lemmas about the history store -/

theorem hasKey_map_set (h : History) (k' v k : Str) :
    hasKey (h.map (fun p => if p.1 = k' then (p.1, v) else p)) k
      = hasKey h k := by
  induction h with
  | nil => rfl
  | cons p t ih =>
    simp only [List.map_cons, hasKey, List.any_cons] at *
    rw [ih]
    congr 1
    split <;> rfl

theorem hasKey_append (h1 h2 : History) (k : Str) :
    hasKey (h1 ++ h2) k = (hasKey h1 k || hasKey h2 k) := by
  simp [hasKey]

theorem hasKey_histSet_mono (h : History) (k' v k : Str)
    (hk : hasKey h k = true) : hasKey (histSet h k' v) k = true := by
  unfold histSet
  split
  · rw [hasKey_map_set]; exact hk
  · rw [hasKey_append]; simp [hk]

theorem hasKey_histSet_self (h : History) (k v : Str) :
    hasKey (histSet h k v) k = true := by
  unfold histSet
  split
  · next hcond => rw [hasKey_map_set]; exact hcond
  · rw [hasKey_append]; simp [hasKey]

theorem hasKey_foldl_mono (l : List Str) (v : Str) :
    ∀ (h : History) (k : Str), hasKey h k = true →
      hasKey (l.foldl (fun h u => histSet h u v) h) k = true := by
  induction l with
  | nil => intro h k hk; exact hk
  | cons u us ih =>
    intro h k hk
    simpa using ih (histSet h u v) k (hasKey_histSet_mono h u v k hk)

/-! ### Helper lemmas about the Forwarder -/

theorem buildMedia_media (h : History) (text : Option Str) :
    ∀ (i : Nat) (urls : List Str),
      (buildMedia h text i urls).map (fun mi => mi.media)
        = eligible h urls := by
  intro i urls
  induction urls generalizing i with
  | nil => rfl
  | cons u us ih =>
    simp only [buildMedia, eligible, List.filter_cons]
    cases hu : hasKey h u with
    | true => simpa [hu, eligible] using ih (i + 1)
    | false => simpa [hu, eligible] using ih (i + 1)

theorem buildMedia_nil_iff (h : History) (text : Option Str) :
    ∀ (i : Nat) (urls : List Str),
      buildMedia h text i urls = [] ↔ ∀ u ∈ urls, hasKey h u = true := by
  intro i urls
  induction urls generalizing i with
  | nil => simp [buildMedia]
  | cons u us ih =>
    simp only [buildMedia]
    cases hu : hasKey h u with
    | true => simp [hu, ih (i + 1)]
    | false => simp [hu]

theorem buildMedia_caption_pos (h : History) (text : Option Str) :
    ∀ (i : Nat) (urls : List Str), i ≠ 0 →
      (buildMedia h text i urls).map (fun mi => mi.caption)
        = List.replicate (eligible h urls).length none := by
  intro i urls
  induction urls generalizing i with
  | nil => simp [buildMedia, eligible]
  | cons u us ih =>
    intro hi
    simp only [buildMedia, eligible, List.filter_cons]
    cases hu : hasKey h u with
    | true => simpa [hu, eligible] using ih (i + 1) (by omega)
    | false =>
      have hiz : (i == 0) = false := by
        cases i with
        | zero => exact absurd rfl hi
        | succ n => rfl
      simpa [hu, hiz, eligible, List.replicate_succ] using ih (i + 1) (by omega)

/-- C1 (amended): whenever the Forwarder call succeeds, the reported list
of sent items is the ENTIRE input image-url list (line 139 iterates over
`image_urls`, not over the deduplicated media), including any urls that the
defensive history check skipped. -/
theorem C1_amended (T : SendReq → Bool) (dh : History) (chat thread : Str)
    (text : Option Str) (urls : List Str)
    (hs : (send_to_telegram T dh chat thread text urls).success = true) :
    (send_to_telegram T dh chat thread text urls).sent_items = urls := by
  unfold send_to_telegram at hs ⊢
  cases hsel : selectReq dh chat thread text urls with
  | none =>
    rw [hsel] at hs
    simp at hs
  | some req =>
    rw [hsel] at hs
    by_cases hT : T req = true
    · simp [hT]
    · simp [hT] at hs

/-- C1 (counterexample): with "a" already in history and input urls
["a", "b"], only "b" is eligible and sent, yet the successful invocation
reports both "a" and "b" as sent: the reported list is not the eligible
list, and the history-skipped url "a" is reported. -/
theorem C1_counterexample :
    (send_to_telegram (fun _ => true) [(['a'], ['t'])] ['c'] ['h'] none
        [['a'], ['b']]).success = true
    ∧ eligible [(['a'], ['t'])] [['a'], ['b']] = [['b']]
    ∧ (send_to_telegram (fun _ => true) [(['a'], ['t'])] ['c'] ['h'] none
        [['a'], ['b']]).sent_items = [['a'], ['b']]
    ∧ (send_to_telegram (fun _ => true) [(['a'], ['t'])] ['c'] ['h'] none
        [['a'], ['b']]).sent_items ≠ [['b']]
    ∧ ['a'] ∈ (send_to_telegram (fun _ => true) [(['a'], ['t'])] ['c'] ['h']
        none [['a'], ['b']]).sent_items := by
  decide

/-- C1 (witness): a successful single-url send reports that url. -/
theorem C1_witness :
    (send_to_telegram (fun _ => true) [] ['c'] ['h'] (some ['t'])
        [['u']]).sent_items = [['u']] :=
  C1_amended (fun _ => true) [] ['c'] ['h'] (some ['t']) [['u']] (by decide)

/-- C3 (amended): with at least two eligible urls the grouped-album call is
selected, its media are exactly the eligible urls, and the caption sits on
the first ALBUM image only when the first INPUT url is itself eligible (the
enumerate index in lines 117-121 ranges over the input list): if the first
input url is already in history, no album image carries the caption. -/
theorem C3_amended (T : SendReq → Bool) (dh : History) (chat thread : Str)
    (text : Option Str) (urls : List Str)
    (h2 : 2 ≤ (eligible dh urls).length) :
    (send_to_telegram T dh chat thread text urls).sends
      = [SendReq.mediaGroup chat thread (buildMedia dh text 0 urls)]
    ∧ (buildMedia dh text 0 urls).map (fun mi => mi.media) = eligible dh urls
    ∧ (buildMedia dh text 0 urls).map (fun mi => mi.caption)
        = if truthyOpt text && !(hasKey dh (urls.headD []))
          then text :: List.replicate ((eligible dh urls).length - 1) none
          else List.replicate (eligible dh urls).length none := by
  have hmedia := buildMedia_media dh text 0 urls
  have hlen : 1 < (buildMedia dh text 0 urls).length := by
    have := congrArg List.length hmedia
    simp only [List.length_map] at this
    omega
  refine ⟨?_, hmedia, ?_⟩
  · have hsel : selectReq dh chat thread text urls
        = some (SendReq.mediaGroup chat thread (buildMedia dh text 0 urls)) := by
      simp only [selectReq]
      rw [if_pos hlen]
    unfold send_to_telegram
    rw [hsel]
    dsimp only
    split <;> rfl
  · match urls, h2 with
    | u :: us, _ =>
      by_cases hu : hasKey dh u = true
      · have helig : eligible dh (u :: us) = eligible dh us := by
          simp [eligible, List.filter_cons, hu]
        have hbm : buildMedia dh text 0 (u :: us) = buildMedia dh text 1 us := by
          simp [buildMedia, hu]
        rw [helig, hbm]
        have hcond : (truthyOpt text && !(hasKey dh ((u :: us).headD []))) = false := by
          simp [hu]
        rw [hcond, if_neg (by simp)]
        exact buildMedia_caption_pos dh text 1 us (by omega)
      · have hu' : hasKey dh u = false := by simpa using hu
        have helig : eligible dh (u :: us) = u :: eligible dh us := by
          simp [eligible, List.filter_cons, hu']
        have hbm : buildMedia dh text 0 (u :: us)
            = ⟨u, if truthyOpt text then text else none⟩
              :: buildMedia dh text 1 us := by
          simp [buildMedia, hu']
        rw [helig, hbm]
        simp only [List.map_cons, List.headD_cons, hu', Bool.not_false,
          Bool.and_true, List.length_cons, Nat.add_sub_cancel]
        rw [buildMedia_caption_pos dh text 1 us (by omega)]
        by_cases ht : truthyOpt text = true
        · simp [ht]
        · have ht' : truthyOpt text = false := by simpa using ht
          simp [ht', List.replicate_succ]

/-- C3 (counterexample): input urls ["a","b","c"] with "a" already in
history, text "t": two urls are eligible (so the claim applies and the
album path is chosen), the text is non-empty, yet NO album image carries
the caption, because the caption is keyed to enumerate index 0 of the raw
input list, which was skipped. -/
theorem C3_counterexample :
    2 ≤ (eligible [(['a'], ['t'])] [['a'], ['b'], ['c']]).length
    ∧ truthyOpt (some ['t']) = true
    ∧ (send_to_telegram (fun _ => true) [(['a'], ['t'])] ['c'] ['h']
        (some ['t']) [['a'], ['b'], ['c']]).sends
      = [SendReq.mediaGroup ['c'] ['h'] [⟨['b'], none⟩, ⟨['c'], none⟩]]
    ∧ (buildMedia [(['a'], ['t'])] (some ['t']) 0
        [['a'], ['b'], ['c']]).map (fun mi => mi.caption) = [none, none] := by
  decide

/-- C3 (witness): three urls, none in history, text present: the album is
chosen with the caption on the first image and on no other. -/
theorem C3_witness :
    (send_to_telegram (fun _ => true) [] ['c'] ['h'] (some ['t'])
        [['a'], ['b'], ['c']]).sends
      = [SendReq.mediaGroup ['c'] ['h']
          (buildMedia [] (some ['t']) 0 [['a'], ['b'], ['c']])]
    ∧ (buildMedia [] (some ['t']) 0 [['a'], ['b'], ['c']]).map
        (fun mi => mi.media) = eligible [] [['a'], ['b'], ['c']]
    ∧ (buildMedia [] (some ['t']) 0 [['a'], ['b'], ['c']]).map
        (fun mi => mi.caption)
      = if truthyOpt (some ['t'])
            && !(hasKey [] ([['a'], ['b'], ['c']].headD []))
        then some ['t']
          :: List.replicate ((eligible [] [['a'], ['b'], ['c']]).length - 1)
              none
        else List.replicate (eligible [] [['a'], ['b'], ['c']]).length none :=
  C3_amended (fun _ => true) [] ['c'] ['h'] (some ['t'])
    [['a'], ['b'], ['c']] (by decide)

/-! ### Helper lemmas about the orchestrator -/

theorem send_fail_result (T : SendReq → Bool) (dh : History)
    (chat thread : Str) (text : Option Str) (urls : List Str)
    (hT : ∀ q, T q = false) :
    (send_to_telegram T dh chat thread text urls).success = false
    ∧ (send_to_telegram T dh chat thread text urls).sent_items = [] := by
  unfold send_to_telegram
  cases hsel : selectReq dh chat thread text urls with
  | none => exact ⟨rfl, rfl⟩
  | some req => simp [hT req]

theorem send_noop (T : SendReq → Bool) (dh : History) (chat thread : Str)
    (text : Option Str) (urls : List Str)
    (hm : buildMedia dh text 0 urls = []) (ht : truthyOpt text = false) :
    send_to_telegram T dh chat thread text urls = ⟨false, [], []⟩ := by
  have hsel : selectReq dh chat thread text urls = none := by
    simp [selectReq, hm, ht]
  unfold send_to_telegram
  rw [hsel]

theorem send_true_success_false (dh : History) (chat thread : Str)
    (text : Option Str) (urls : List Str)
    (hs : (send_to_telegram (fun _ => true) dh chat thread text
        urls).success = false) :
    buildMedia dh text 0 urls = [] ∧ truthyOpt text = false := by
  unfold send_to_telegram at hs
  cases hsel : selectReq dh chat thread text urls with
  | none =>
    unfold selectReq at hsel
    by_cases h1 : 1 < (buildMedia dh text 0 urls).length
    · simp [h1] at hsel
    · by_cases h2 : ((buildMedia dh text 0 urls).length == 1) = true
      · simp [h1, h2] at hsel
      · by_cases h3 : truthyOpt text = true
        · simp [h1, h2, h3] at hsel
        · refine ⟨?_, by simpa using h3⟩
          have : (buildMedia dh text 0 urls).length = 0 := by
            simp only [beq_iff_eq] at h2
            omega
          exact List.eq_nil_of_length_eq_zero this
  | some req =>
    rw [hsel] at hs
    simp at hs

theorem process_message_hist_mono (T : SendReq → Bool) (env : Env)
    (chat thread : Str) (hist : History) (m : Message) (k : Str)
    (hk : hasKey hist k = true) :
    hasKey (process_message T env chat thread hist m).hist k = true := by
  unfold process_message
  split
  · exact hk
  · dsimp only
    split
    · exact hasKey_foldl_mono _ _ _ _ (hasKey_histSet_mono _ _ _ _ hk)
    · exact hk

theorem runSteps_hist_mono (T : SendReq → Bool) (env : Env)
    (chat thread : Str) :
    ∀ (ms : List Message) (hist : History) (k : Str),
      hasKey hist k = true →
      hasKey (runSteps T env chat thread hist ms).hist k = true := by
  intro ms
  induction ms with
  | nil => intro hist k hk; exact hk
  | cons m rest ih =>
    intro hist k hk
    exact ih _ k (process_message_hist_mono T env chat thread hist m k hk)

/-! ### C5: the Window Filter -/

/-- C5: for a parseable timestamp T the 1-hour window rejects now = T + 61
minutes and admits now = T + 59 minutes (the comparison is strict), and an
unparseable timestamp yields false at any current time rather than an
error. -/
theorem C5_window (fromiso : Str → Option Int) (ts : Str) (t now : Int) :
    (fromiso (replaceZ ts) = some t →
      is_within_window fromiso 1 (t + 61 * 60) ts = false
      ∧ is_within_window fromiso 1 (t + 59 * 60) ts = true)
    ∧ (fromiso (replaceZ ts) = none →
      is_within_window fromiso 1 now ts = false) := by
  constructor
  · intro hp
    unfold is_within_window
    rw [hp]
    constructor
    · simp only [decide_eq_false_iff_not]
      omega
    · simp only [decide_eq_true_eq]
      omega
  · intro hp
    unfold is_within_window
    rw [hp]

/-- A concrete stand-in for the fromisoformat collaborator: parses one
fixed timestamp string to the epoch and rejects everything else. -/
def demoParse : Str → Option Int := fun s =>
  if s = ['T', '0'] then some 0 else none

/-- C5 (witness): at the concrete parser, 61 minutes after a parseable
timestamp is out of the 1-hour window, 59 minutes is inside it, and an
unparseable string is not recent. -/
theorem C5_window_witness :
    (is_within_window demoParse 1 (0 + 61 * 60) ['T', '0'] = false
      ∧ is_within_window demoParse 1 (0 + 59 * 60) ['T', '0'] = true)
    ∧ is_within_window demoParse 1 0 ['g'] = false :=
  ⟨(C5_window demoParse ['T', '0'] 0 0).1 (by decide),
   (C5_window demoParse ['g'] 0 0).2 (by decide)⟩

/-! ### C9: history key suppresses every send for the message -/

/-- C9: a message whose id is already a history key at the start of its
processing step is skipped outright: the step consists of the skip check
only, issues no destination send of any kind, leaves the history unchanged
and does not raise the processed counter. -/
theorem C9_skip (T : SendReq → Bool) (env : Env) (chat thread : Str)
    (hist : History) (m : Message) (hmem : hasKey hist m.id = true) :
    process_message T env chat thread hist m
      = ⟨hist, [Event.skipCheck m.id hist], 0⟩
    ∧ countSends (process_message T env chat thread hist m).events = 0 := by
  have hcond : (hasKey hist m.id
      || !(is_within_window env.fromiso env.windowHours env.now
            m.timestamp)) = true := by
    simp [hmem]
  constructor
  · unfold process_message
    rw [if_pos hcond]
  · unfold process_message
    rw [if_pos hcond]
    rfl

/-- A concrete environment for instantiating the per-step theorems. -/
def demoEnv : Env :=
  { fromiso := fun s => if s = ['T', '0'] then some 0 else none
    windowHours := 1
    now := 0
    nowIso := ['n']
    words := [] }

/-- A concrete fetched message whose id "42" is used by the C9 witness. -/
def msg42 : Message :=
  { id := ['4', '2'], timestamp := ['T', '0'], content := ['y']
    embeds := [], attachments := [] }

/-- C9 (witness): with id "42" already a history key, the step for the
fetched message with id "42" is the bare skip check and zero sends. -/
theorem C9_skip_witness :
    process_message (fun _ => true) demoEnv ['c'] ['h']
        [(['4', '2'], ['x'])] msg42
      = ⟨[(['4', '2'], ['x'])],
         [Event.skipCheck ['4', '2'] [(['4', '2'], ['x'])]], 0⟩
    ∧ countSends (process_message (fun _ => true) demoEnv ['c'] ['h']
        [(['4', '2'], ['x'])] msg42).events = 0 :=
  C9_skip (fun _ => true) demoEnv ['c'] ['h'] [(['4', '2'], ['x'])] msg42
    (by decide)

/-! ### C10: empty text and no image attachments -/

/-- C10: a message whose built text body is empty and whose attachments
yield no image urls makes the Forwarder return the transport-failure shape
(false, []) without any outbound call; the step leaves history unchanged
(the id is not recorded) and the save still runs, so on any later run with
the message still inside the window the skip condition is again false and
the message is re-examined. -/
theorem C10_empty_noop (T : SendReq → Bool) (env : Env) (chat thread : Str)
    (hist : History) (m : Message)
    (htext : buildFullText env.words m = [])
    (himg : imageUrls m = [])
    (hid : hasKey hist m.id = false)
    (hwin : is_within_window env.fromiso env.windowHours env.now
        m.timestamp = true) :
    send_to_telegram T hist chat thread (some (buildFullText env.words m))
        (imageUrls m) = ⟨false, [], []⟩
    ∧ (process_message T env chat thread hist m).hist = hist
    ∧ countSends (process_message T env chat thread hist m).events = 0
    ∧ (process_message T env chat thread hist m).cnt = 0
    ∧ (hasKey (process_message T env chat thread hist m).hist m.id
        || !(is_within_window env.fromiso env.windowHours env.now
              m.timestamp)) = false := by
  have hsend : send_to_telegram T hist chat thread
      (some (buildFullText env.words m)) (imageUrls m) = ⟨false, [], []⟩ := by
    apply send_noop
    · rw [himg]; rfl
    · rw [truthyOpt, htext]; rfl
  have hcond : (hasKey hist m.id
      || !(is_within_window env.fromiso env.windowHours env.now
            m.timestamp)) = false := by
    simp [hid, hwin]
  have hstep : process_message T env chat thread hist m
      = ⟨hist, [Event.skipCheck m.id hist, Event.loadHistory hist,
                Event.saveHistory hist], 0⟩ := by
    unfold process_message
    rw [if_neg (by simp [hcond])]
    dsimp only
    rw [hsend]
    rfl
  refine ⟨hsend, ?_, ?_, ?_, ?_⟩
  · rw [hstep]
  · rw [hstep]; rfl
  · rw [hstep]
  · rw [hstep]; exact hcond

/-- A concrete message with empty content, no embeds, and one non-image
attachment, used by the C10 witness. -/
def msgEmpty : Message :=
  { id := ['m'], timestamp := ['T', '0'], content := []
    embeds := []
    attachments := [{ url := ['v'], content_type := ['v', 'i', 'd'] }] }

/-- C10 (witness): the concrete empty message is not sent, not recorded,
and still passes the skip condition on a later run. -/
theorem C10_empty_noop_witness :
    send_to_telegram (fun _ => true) [] ['c'] ['h']
        (some (buildFullText demoEnv.words msgEmpty)) (imageUrls msgEmpty)
      = ⟨false, [], []⟩
    ∧ (process_message (fun _ => true) demoEnv ['c'] ['h'] [] msgEmpty).hist
      = []
    ∧ countSends (process_message (fun _ => true) demoEnv ['c'] ['h'] []
        msgEmpty).events = 0
    ∧ (process_message (fun _ => true) demoEnv ['c'] ['h'] [] msgEmpty).cnt
      = 0
    ∧ (hasKey (process_message (fun _ => true) demoEnv ['c'] ['h'] []
          msgEmpty).hist msgEmpty.id
        || !(is_within_window demoEnv.fromiso demoEnv.windowHours
              demoEnv.now msgEmpty.timestamp)) = false :=
  C10_empty_noop (fun _ => true) demoEnv ['c'] ['h'] [] msgEmpty
    (by decide) (by decide) (by decide) (by decide)

/-! ### C6: transport failure records nothing but the save still runs -/

/-- C6: when the transport raises on a message that was actually attempted
(not skipped), the Forwarder reports (false, []), the step adds no history
key for the message id or any image url (history is unchanged), the
processed counter does not advance, and the unconditional history save of
line 181 still runs after the failed attempt, as the final event of the
step. -/
theorem C6_fail_no_record (T : SendReq → Bool) (env : Env)
    (chat thread : Str) (hist : History) (m : Message)
    (hT : ∀ q, T q = false)
    (hskip : (hasKey hist m.id
      || !(is_within_window env.fromiso env.windowHours env.now
            m.timestamp)) = false) :
    (send_to_telegram T hist chat thread (some (buildFullText env.words m))
        (imageUrls m)).success = false
    ∧ (send_to_telegram T hist chat thread
        (some (buildFullText env.words m)) (imageUrls m)).sent_items = []
    ∧ (process_message T env chat thread hist m).hist = hist
    ∧ (process_message T env chat thread hist m).cnt = 0
    ∧ (process_message T env chat thread hist m).events.getLast?
      = some (Event.saveHistory hist) := by
  obtain ⟨hsucc, hsent⟩ := send_fail_result T hist chat thread
    (some (buildFullText env.words m)) (imageUrls m) hT
  have hstep : process_message T env chat thread hist m
      = ⟨hist,
         Event.skipCheck m.id hist :: Event.loadHistory hist ::
           (send_to_telegram T hist chat thread
             (some (buildFullText env.words m))
             (imageUrls m)).sends.map Event.send
           ++ [Event.saveHistory hist], 0⟩ := by
    unfold process_message
    rw [if_neg (by simp [hskip])]
    dsimp only
    rw [hsucc]
    simp
  refine ⟨hsucc, hsent, ?_, ?_, ?_⟩
  · rw [hstep]
  · rw [hstep]
  · rw [hstep]
    dsimp only
    rw [show (Event.skipCheck m.id hist :: Event.loadHistory hist ::
        (send_to_telegram T hist chat thread
          (some (buildFullText env.words m))
          (imageUrls m)).sends.map Event.send ++ [Event.saveHistory hist])
      = (Event.skipCheck m.id hist :: Event.loadHistory hist ::
          (send_to_telegram T hist chat thread
            (some (buildFullText env.words m))
            (imageUrls m)).sends.map Event.send) ++ [Event.saveHistory hist]
      from by simp]
    exact List.getLast?_concat _

/-- C6 (witness): a failing transport on a real message leaves the history
empty, reports (false, []), and still ends the step with the save. -/
theorem C6_fail_no_record_witness :
    (send_to_telegram (fun _ => false) [] ['c'] ['h']
        (some (buildFullText demoEnv.words msg42))
        (imageUrls msg42)).success = false
    ∧ (send_to_telegram (fun _ => false) [] ['c'] ['h']
        (some (buildFullText demoEnv.words msg42))
        (imageUrls msg42)).sent_items = []
    ∧ (process_message (fun _ => false) demoEnv ['c'] ['h'] [] msg42).hist
      = []
    ∧ (process_message (fun _ => false) demoEnv ['c'] ['h'] [] msg42).cnt
      = 0
    ∧ (process_message (fun _ => false) demoEnv ['c'] ['h'] []
        msg42).events.getLast? = some (Event.saveHistory []) :=
  C6_fail_no_record (fun _ => false) demoEnv ['c'] ['h'] [] msg42
    (fun _ => rfl) (by decide)

/-! ### C2: when the history file is read relative to the skip check -/

/-- Modelled from the spec wording of C2: a step "reloads history at its
start" when a history load appears in the step's trace before the step
reaches its skip check. -/
def reloadedBeforeCheck (evs : List Event) : Bool :=
  (evs.takeWhile (fun e => !(isCheckEvent e))).any isLoadEvent

theorem process_message_events_head (T : SendReq → Bool) (env : Env)
    (chat thread : Str) (h : History) (m : Message) :
    ∃ rest, (process_message T env chat thread h m).events
      = Event.skipCheck m.id h :: rest := by
  unfold process_message
  split
  · exact ⟨[], rfl⟩
  · exact ⟨_, rfl⟩

theorem runSteps_steps_head (T : SendReq → Bool) (env : Env)
    (chat thread : Str) :
    ∀ (ms : List Message) (h : History),
      ∀ s ∈ (runSteps T env chat thread h ms).steps,
        ∃ i hh rest, s = Event.skipCheck i hh :: rest := by
  intro ms
  induction ms with
  | nil =>
    intro h s hs
    simp [runSteps] at hs
  | cons m rest ih =>
    intro h s hs
    simp only [runSteps] at hs
    rcases List.mem_cons.mp hs with h1 | h2
    · obtain ⟨r, hr⟩ := process_message_events_head T env chat thread h m
      exact ⟨m.id, h, r, by rw [h1, hr]⟩
    · exact ih _ s h2

theorem reloadedBeforeCheck_head_check (i : Str) (hh : History)
    (rest : List Event) :
    reloadedBeforeCheck (Event.skipCheck i hh :: rest) = false := by
  unfold reloadedBeforeCheck
  rw [List.takeWhile_cons_of_neg]
  · rfl
  · simp [isCheckEvent]

theorem insertByTs_length (m : Message) :
    ∀ (l : List Message), (insertByTs m l).length = l.length + 1 := by
  intro l
  induction l with
  | nil => rfl
  | cons x xs ih =>
    simp only [insertByTs]
    split
    · simp [ih]
    · simp

theorem sortByTs_length :
    ∀ (l : List Message), (sortByTs l).length = l.length := by
  intro l
  induction l with
  | nil => rfl
  | cons m ms ih => simp [sortByTs, insertByTs_length, ih]

/-- C2 (counterexample): a channel run over two messages whose ids are
both already history keys.  The run's per-message step traces consist of
the two skip checks alone: no step reloads the history file before its
skip check (the single channel-level load of line 154 happened before the
loop), refuting the per-message reload reading. -/
theorem C2_counterexample :
    (process_channel (fun _ => true) demoEnv ['c'] ['h']
        (some [{ id := ['1'], timestamp := ['a'], content := [],
                 embeds := [], attachments := [] },
               { id := ['2'], timestamp := ['b'], content := [],
                 embeds := [], attachments := [] }])
        [(['1'], ['x']), (['2'], ['x'])]).steps
      = [[Event.skipCheck ['1'] [(['1'], ['x']), (['2'], ['x'])]],
         [Event.skipCheck ['2'] [(['1'], ['x']), (['2'], ['x'])]]]
    ∧ ((process_channel (fun _ => true) demoEnv ['c'] ['h']
        (some [{ id := ['1'], timestamp := ['a'], content := [],
                 embeds := [], attachments := [] },
               { id := ['2'], timestamp := ['b'], content := [],
                 embeds := [], attachments := [] }])
        [(['1'], ['x']), (['2'], ['x'])]).steps.all reloadedBeforeCheck)
      = false := by
  decide

/-- C2 (amended): the history store is loaded from persistent storage once
per channel run, before the message loop (and the Forwarder loads it again
inside each attempted send, after the skip check); every per-message step
begins directly with the skip check, evaluated against the channel-level
in-memory history, with no fresh load before it. -/
theorem C2_amended (T : SendReq → Bool) (env : Env) (chat thread : Str)
    (msgs : List Message) (h0 : History) (hne : msgs ≠ []) :
    (process_channel T env chat thread (some msgs) h0).initEvents
      = [Event.loadHistory h0]
    ∧ ∀ s ∈ (process_channel T env chat thread (some msgs) h0).steps,
        reloadedBeforeCheck s = false := by
  have hsne : sortByTs msgs ≠ [] := by
    intro hcontra
    have hlen := sortByTs_length msgs
    rw [hcontra] at hlen
    exact hne (List.eq_nil_of_length_eq_zero hlen.symm)
  obtain ⟨m, ms, hq⟩ : ∃ m ms, sortByTs msgs = m :: ms := by
    cases hsort : sortByTs msgs with
    | nil => exact absurd hsort hsne
    | cons a as => exact ⟨a, as, rfl⟩
  have hpc : process_channel T env chat thread (some msgs) h0
      = ⟨(runSteps T env chat thread h0 (m :: ms)).hist,
         [Event.loadHistory h0],
         (runSteps T env chat thread h0 (m :: ms)).steps,
         (runSteps T env chat thread h0 (m :: ms)).cnt⟩ := by
    unfold process_channel get_discord_messages
    dsimp only
    rw [hq]
  rw [hpc]
  refine ⟨rfl, ?_⟩
  intro s hs
  obtain ⟨i, hh, rest, hr⟩ :=
    runSteps_steps_head T env chat thread (m :: ms) h0 s hs
  rw [hr]
  exact reloadedBeforeCheck_head_check i hh rest

/-- C2 (witness): a one-message channel run loads the history exactly once
at channel level. -/
theorem C2_amended_witness :
    (process_channel (fun _ => true) demoEnv ['c'] ['h'] (some [msg42])
        []).initEvents = [Event.loadHistory []] :=
  (C2_amended (fun _ => true) demoEnv ['c'] ['h'] [msg42] []
    (by decide)).1

/-! ### C8: a fetch failure aborts only its own channel -/

/-- C8: when the fetch for the first mapped channel raises, that channel
contributes an empty result (no history load, no steps, zero sends) and
the remaining mappings are processed exactly as a run over them alone,
from the same starting history; the failure is not fatal to the run. -/
theorem C8_fetch_fail (T : SendReq → Bool)
    (fetchRaw : Str → Option (List Message)) (env : Env)
    (dtok ttok : Option Str) (dc tc tt : Str)
    (rest : List (Str × Str × Str)) (h0 : History)
    (htok : (truthyOpt dtok && truthyOpt ttok) = true)
    (hfail : fetchRaw dc = none) :
    main_run T fetchRaw env dtok ttok ((dc, tc, tt) :: rest) h0
      = ((runChannels T fetchRaw env rest h0).1,
         (dc, ⟨h0, [], [], 0⟩) :: (runChannels T fetchRaw env rest h0).2)
    ∧ chanSends ⟨h0, [], [], 0⟩ = 0
    ∧ main_run T fetchRaw env dtok ttok rest h0
      = runChannels T fetchRaw env rest h0 := by
  have hpc : process_channel T env tc tt (fetchRaw dc) h0
      = ⟨h0, [], [], 0⟩ := by
    rw [hfail]
    rfl
  refine ⟨?_, rfl, ?_⟩
  · unfold main_run
    rw [if_pos htok]
    rw [show runChannels T fetchRaw env ((dc, tc, tt) :: rest) h0
        = ((runChannels T fetchRaw env rest
              (process_channel T env tc tt (fetchRaw dc) h0).hist).1,
           (dc, process_channel T env tc tt (fetchRaw dc) h0)
             :: (runChannels T fetchRaw env rest
                  (process_channel T env tc tt (fetchRaw dc) h0).hist).2)
      from rfl]
    rw [hpc]
  · unfold main_run
    rw [if_pos htok]

/-- C8 (witness): with both tokens present and a fetch that raises for
channel "A", the run still processes the subsequent mapping for channel
"B" exactly as a run over it alone, and channel "A" contributes zero
sends. -/
theorem C8_fetch_fail_witness :
    main_run (fun _ => true) (fun _ => none) demoEnv (some ['d'])
        (some ['t']) [(['A'], ['c'], ['h']), (['B'], ['c'], ['h'])] []
      = ((runChannels (fun _ => true) (fun _ => none) demoEnv
            [(['B'], ['c'], ['h'])] []).1,
         (['A'], ⟨[], [], [], 0⟩)
           :: (runChannels (fun _ => true) (fun _ => none) demoEnv
                [(['B'], ['c'], ['h'])] []).2)
    ∧ chanSends ⟨[], [], [], 0⟩ = 0
    ∧ main_run (fun _ => true) (fun _ => none) demoEnv (some ['d'])
        (some ['t']) [(['B'], ['c'], ['h'])] []
      = runChannels (fun _ => true) (fun _ => none) demoEnv
          [(['B'], ['c'], ['h'])] [] :=
  C8_fetch_fail (fun _ => true) (fun _ => none) demoEnv (some ['d'])
    (some ['t']) ['A'] ['c'] ['h'] [(['B'], ['c'], ['h'])] []
    (by decide) rfl

/-! ### C7: a second run over the same fetched items sends nothing -/

theorem process_message_attempt (T : SendReq → Bool) (env : Env)
    (chat thread : Str) (h : History) (m : Message)
    (hcond : (hasKey h m.id
      || !(is_within_window env.fromiso env.windowHours env.now
            m.timestamp)) = false) :
    process_message T env chat thread h m
      = (let r := send_to_telegram T h chat thread
            (some (buildFullText env.words m)) (imageUrls m)
         let hist' := if r.success then
             r.sent_items.foldl (fun hh u => histSet hh u env.nowIso)
               (histSet h m.id env.nowIso)
           else h
         ⟨hist',
          Event.skipCheck m.id h :: Event.loadHistory h ::
            r.sends.map Event.send ++ [Event.saveHistory hist'],
          if r.success then 1 else 0⟩) := by
  unfold process_message
  rw [if_neg (by simp [hcond])]

theorem second_step_noop (T2 : SendReq → Bool) (env : Env)
    (chat thread : Str) (h0 h1 : History) (m : Message)
    (hkey : ∀ k,
      hasKey (process_message (fun _ => true) env chat thread h0 m).hist k
        = true → hasKey h1 k = true) :
    (process_message T2 env chat thread h1 m).hist = h1
    ∧ (process_message T2 env chat thread h1 m).cnt = 0
    ∧ countSends (process_message T2 env chat thread h1 m).events = 0 := by
  by_cases hskip1 : (hasKey h1 m.id
      || !(is_within_window env.fromiso env.windowHours env.now
            m.timestamp)) = true
  · have hstep : process_message T2 env chat thread h1 m
        = ⟨h1, [Event.skipCheck m.id h1], 0⟩ := by
      unfold process_message
      rw [if_pos hskip1]
    rw [hstep]
    exact ⟨rfl, rfl, rfl⟩
  · have hskip1' : (hasKey h1 m.id
        || !(is_within_window env.fromiso env.windowHours env.now
              m.timestamp)) = false := by
      simpa using hskip1
    obtain ⟨hid1, hwinb⟩ := Bool.or_eq_false_iff.mp hskip1'
    have hwin : is_within_window env.fromiso env.windowHours env.now
        m.timestamp = true := by
      simpa using hwinb
    have hid0 : hasKey h0 m.id = false := by
      cases hid0 : hasKey h0 m.id with
      | false => rfl
      | true =>
        have hm := process_message_hist_mono (fun _ => true) env chat thread
          h0 m m.id hid0
        rw [hkey m.id hm] at hid1
        exact absurd hid1 (by simp)
    have hcond0 : (hasKey h0 m.id
        || !(is_within_window env.fromiso env.windowHours env.now
              m.timestamp)) = false := by
      simp [hid0, hwin]
    cases hsucc : (send_to_telegram (fun _ => true) h0 chat thread
        (some (buildFullText env.words m)) (imageUrls m)).success with
    | true =>
      exfalso
      have hm : hasKey
          (process_message (fun _ => true) env chat thread h0 m).hist m.id
          = true := by
        rw [process_message_attempt (fun _ => true) env chat thread h0 m
          hcond0]
        dsimp only
        simp only [hsucc, if_true]
        exact hasKey_foldl_mono _ _ _ _ (hasKey_histSet_self _ _ _)
      rw [hkey m.id hm] at hid1
      exact absurd hid1 (by simp)
    | false =>
      obtain ⟨hmedia0, htruthy⟩ := send_true_success_false h0 chat thread
        (some (buildFullText env.words m)) (imageUrls m) hsucc
      have hh0h1 : ∀ k, hasKey h0 k = true → hasKey h1 k = true := by
        intro k hk
        apply hkey
        rw [process_message_attempt (fun _ => true) env chat thread h0 m
          hcond0]
        dsimp only
        simp only [hsucc]
        simpa using hk
      have hmedia1 : buildMedia h1 (some (buildFullText env.words m)) 0
          (imageUrls m) = [] := by
        rw [buildMedia_nil_iff]
        intro u hu
        exact hh0h1 u
          ((buildMedia_nil_iff h0 (some (buildFullText env.words m)) 0
            (imageUrls m)).mp hmedia0 u hu)
      have hsend2 := send_noop T2 h1 chat thread
        (some (buildFullText env.words m)) (imageUrls m) hmedia1 htruthy
      have hstep2 : process_message T2 env chat thread h1 m
          = ⟨h1, [Event.skipCheck m.id h1, Event.loadHistory h1,
                  Event.saveHistory h1], 0⟩ := by
        rw [process_message_attempt T2 env chat thread h1 m hskip1']
        dsimp only
        rw [hsend2]
        rfl
      rw [hstep2]
      exact ⟨rfl, rfl, rfl⟩

theorem runSteps_cons (T : SendReq → Bool) (env : Env) (chat thread : Str)
    (h : History) (m : Message) (rest : List Message) :
    runSteps T env chat thread h (m :: rest)
      = ⟨(runSteps T env chat thread
            (process_message T env chat thread h m).hist rest).hist,
         (process_message T env chat thread h m).events
           :: (runSteps T env chat thread
                (process_message T env chat thread h m).hist rest).steps,
         (process_message T env chat thread h m).cnt
           + (runSteps T env chat thread
                (process_message T env chat thread h m).hist rest).cnt⟩ :=
  rfl

theorem runSteps_rerun (T2 : SendReq → Bool) (env : Env)
    (chat thread : Str) :
    ∀ (ms : List Message) (h0 : History),
      (runSteps T2 env chat thread
          (runSteps (fun _ => true) env chat thread h0 ms).hist ms).hist
        = (runSteps (fun _ => true) env chat thread h0 ms).hist
      ∧ (runSteps T2 env chat thread
          (runSteps (fun _ => true) env chat thread h0 ms).hist ms).cnt = 0
      ∧ ((runSteps T2 env chat thread
          (runSteps (fun _ => true) env chat thread h0 ms).hist ms).steps.map
            countSends).sum = 0 := by
  intro ms
  induction ms with
  | nil => intro h0; exact ⟨rfl, rfl, rfl⟩
  | cons m rest ih =>
    intro h0
    have hkey : ∀ k,
        hasKey (process_message (fun _ => true) env chat thread h0 m).hist k
          = true →
        hasKey (runSteps (fun _ => true) env chat thread
          (process_message (fun _ => true) env chat thread h0 m).hist
          rest).hist k = true :=
      fun k hk => runSteps_hist_mono (fun _ => true) env chat thread rest _ k hk
    obtain ⟨ha, hb, hc⟩ := second_step_noop T2 env chat thread h0
      (runSteps (fun _ => true) env chat thread
        (process_message (fun _ => true) env chat thread h0 m).hist
        rest).hist m hkey
    obtain ⟨ia, ib, ic⟩ := ih
      (process_message (fun _ => true) env chat thread h0 m).hist
    rw [runSteps_cons (fun _ => true) env chat thread h0 m rest]
    dsimp only
    rw [runSteps_cons T2 env chat thread _ m rest]
    rw [ha]
    dsimp only
    refine ⟨ia, ?_, ?_⟩
    · rw [hb, ib]
    · simp only [List.map_cons, List.sum_cons, hc, ic]

/-- C7: running the channel pipeline a second time over the same fetched
items, after a first run in which every transport call succeeded and whose
final history was persisted, produces zero destination sends, advances the
processed counter by zero, and leaves the history unchanged: every item
sent in the first run is skipped via its history key, everything else is
skipped or degenerates to the no-content no-op again. -/
theorem C7_idempotent (T2 : SendReq → Bool) (env : Env) (chat thread : Str)
    (fetched : Option (List Message)) (h0 : History) :
    chanSends (process_channel T2 env chat thread fetched
        (process_channel (fun _ => true) env chat thread fetched h0).hist)
      = 0
    ∧ (process_channel T2 env chat thread fetched
        (process_channel (fun _ => true) env chat thread fetched
          h0).hist).cnt = 0
    ∧ (process_channel T2 env chat thread fetched
        (process_channel (fun _ => true) env chat thread fetched
          h0).hist).hist
      = (process_channel (fun _ => true) env chat thread fetched h0).hist := by
  cases fetched with
  | none => exact ⟨rfl, rfl, rfl⟩
  | some msgs =>
    cases hq : sortByTs msgs with
    | nil =>
      have hpc : ∀ (T : SendReq → Bool) (h : History),
          process_channel T env chat thread (some msgs) h
            = ⟨h, [], [], 0⟩ := by
        intro T h
        unfold process_channel get_discord_messages
        dsimp only
        rw [hq]
      rw [hpc, hpc]
      exact ⟨rfl, rfl, rfl⟩
    | cons m ms =>
      have hpc : ∀ (T : SendReq → Bool) (h : History),
          process_channel T env chat thread (some msgs) h
            = ⟨(runSteps T env chat thread h (m :: ms)).hist,
               [Event.loadHistory h],
               (runSteps T env chat thread h (m :: ms)).steps,
               (runSteps T env chat thread h (m :: ms)).cnt⟩ := by
        intro T h
        unfold process_channel get_discord_messages
        dsimp only
        rw [hq]
      rw [hpc, hpc]
      obtain ⟨ra, rb, rc⟩ := runSteps_rerun T2 env chat thread (m :: ms) h0
      refine ⟨?_, rb, ra⟩
      unfold chanSends
      dsimp only
      rw [rc]
      rfl

end Mirror
